import Mathlib

/-!
Verification of the Euchre Stats hand-accounting engine.

This file is a shallow embedding of the scoring and ledger code of the
repository: the hand-resolution blocks of `app.py` (active-games "Log
Hand" form and finished-games "Add"/"Update Hand" forms), the
database-layer mutations `add_hand` and `delete_last_hand` of
`database_firestore.py` (the backend imported by `app.py`; the SQLite
twin in `database.py` performs the same computation), the listing
functions, and the roster lookup of `models.py`.  Python integers are
modelled as `Int`, timestamps as `Nat` (ISO strings compare
chronologically), Python's raising `int(...)` as `Option`.
-/

namespace Euchre

/-- Models one hand record as stored by `database_firestore.add_hand`
(the fields of `hand_data`, database_firestore.py lines 265-280; the
document / row id and game id are not modelled because a state carries
the hands of a single game). -/
structure HandRec where
  hand_number : Nat
  caller_name : String
  caller_team : String
  call_value : String
  points_scored : Int
  is_euchre : Bool
  other_team_points : Int
  team1_delta : Int
  team2_delta : Int
  team1_cumulative : Int
  team2_cumulative : Int
  notes : Option String
  created_at : Nat
  deriving DecidableEq

/-- Models one game document (database_firestore.py lines 95-107)
together with its owned hand collection, kept in `get_hands` order
(ascending `hand_number`; every reachable state appends with a strictly
larger number, so list order is hand-number order). -/
structure GameRec where
  id : Nat
  team1_name : String
  team2_name : String
  team1_players : List String
  team2_players : List String
  team1_score : Int
  team2_score : Int
  target_score : Int
  status : String
  winner : Option String
  created_at : Nat
  finished_at : Option Nat
  hands : List HandRec
  deriving DecidableEq

/-- Models the per-team delta block inside `add_hand`
(database_firestore.py lines 242-258, identical in database.py lines
218-234): on a euchre the caller's team loses `points_scored` and the
other team gains `other_team_points`; otherwise the caller's team gains
`points_scored`.  Any `caller_team` other than "team1" falls into the
else branch, exactly as in the source. -/
def handDeltas (caller_team : String) (points_scored : Int)
    (is_euchre : Bool) (other_team_points : Int) : Int × Int :=
  if is_euchre then
    if caller_team = "team1" then (-points_scored, other_team_points)
    else (other_team_points, -points_scored)
  else
    if caller_team = "team1" then (points_scored, (0 : Int))
    else ((0 : Int), points_scored)

/-- Delta of the caller's own team out of a `(team1_delta, team2_delta)`
pair. -/
def callerDelta (caller_team : String) (d : Int × Int) : Int :=
  if caller_team = "team1" then d.1 else d.2

/-- Delta of the team opposing the caller out of a
`(team1_delta, team2_delta)` pair. -/
def opponentDelta (caller_team : String) (d : Int × Int) : Int :=
  if caller_team = "team1" then d.2 else d.1

/-- Accumulates decimal digits; fails at the first non-digit. -/
def digitsToNatAux : List Char → Nat → Option Nat
  | [], acc => some acc
  | c :: cs, acc =>
      if 48 ≤ c.toNat && c.toNat ≤ 57 then
        digitsToNatAux cs (acc * 10 + (c.toNat - 48))
      else none

/-- Models Python's `int(s)` on base-10 strings: an optional sign
followed by one or more decimal digits, `none` where Python raises
`ValueError`.  (Python additionally strips surrounding whitespace and
allows underscores between digits; such strings play no role in the
claims, which only assume whether the call value parses.) -/
def pyInt (s : String) : Option Int :=
  match s.data with
  | [] => none
  | '-' :: cs =>
      if cs.isEmpty then none
      else (digitsToNatAux cs 0).map (fun n => -(n : Int))
  | '+' :: cs =>
      if cs.isEmpty then none
      else (digitsToNatAux cs 0).map (fun n => (n : Int))
  | cs => (digitsToNatAux cs 0).map (fun n => (n : Int))

/-- Result of resolving a raw hand entry in `app.py`: the euchre flag,
the points awarded to the other team, and `points_to_record`, the value
the page passes to the database layer as `points_scored`. -/
structure Resolved where
  is_euchre : Bool
  other_team_points : Int
  points_to_record : Int
  deriving DecidableEq

/-- Models the hand-resolution block of the active-games "Log Hand"
form (app.py lines 451-495).  `points_scored` is the raw "Points Scored
by Caller" input.  Python's `int(call_value)` with its `ValueError`
fallback to `points_scored` is modelled by `pyInt` with
`getD points_scored`. -/
def activePageResolve (call_value : String) (points_scored : Int) : Resolved :=
  if call_value = "Partner Best" then
    let tricks_gotten := points_scored
    if tricks_gotten < 8 then ⟨true, 8 - tricks_gotten, 16⟩
    else ⟨false, 0, 16⟩
  else if call_value = "Alone" then
    let tricks_gotten := points_scored
    if tricks_gotten < 8 then ⟨true, 8 - tricks_gotten, 8⟩
    else ⟨false, 0, 8⟩
  else
    let call_value_int := (pyInt call_value).getD points_scored
    if points_scored < call_value_int then
      ⟨true, 8 - points_scored, call_value_int⟩
    else ⟨false, 0, points_scored⟩

/-- Models the hand-resolution block of the finished-games "Add New
Hand" form (app.py lines 722-749); the "Update Hand" block (app.py
lines 814-841) is line-for-line identical.  Here `int(new_call_value)`
has no exception handler, so an unparseable call is modelled as `none`
(the page's call selectbox only offers "1", "2", "3", "4", "Alone" and
"Partner Best").  Note the numeric euchre branch records
`call_int * 2`. -/
def finishedPageResolve (call_value : String) (new_points : Int) : Option Resolved :=
  if call_value = "Alone" then
    some (if new_points = 8 then ⟨false, 0, 8⟩ else ⟨true, 8 - new_points, 8⟩)
  else if call_value = "Partner Best" then
    some (if new_points = 8 then ⟨false, 0, 16⟩ else ⟨true, 8 - new_points, 16⟩)
  else
    (pyInt call_value).map (fun call_int =>
      if new_points < call_int then ⟨true, 8 - new_points, call_int * 2⟩
      else ⟨false, 0, new_points⟩)

/-- Deltas produced when a page feeds a resolved hand to the database
layer: `points_to_record` is passed as `points_scored`. -/
def resolvedDeltas (caller_team : String) (r : Resolved) : Int × Int :=
  handDeltas caller_team r.points_to_record r.is_euchre r.other_team_points

/-- Models `models.Game.get_player_team` (models.py lines 100-106). -/
def get_player_team (team1_players team2_players : List String)
    (player_name : String) : Option String :=
  if player_name ∈ team1_players then some "team1"
  else if player_name ∈ team2_players then some "team2"
  else none

/-- Models caller selection and team derivation of the hand-entry
forms: the "Caller" selectbox offers exactly
`team1_players + team2_players` (app.py lines 413 and 421, likewise
lines 667 and 686), so a name outside both rosters cannot be submitted,
modelled as `none`; a submitted caller's team is then derived by roster
membership (app.py lines 424-429 and 716-719). -/
def selectCallerTeam (team1_players team2_players : List String)
    (caller_name : String) : Option String :=
  if caller_name ∈ team1_players ++ team2_players then
    some (if caller_name ∈ team1_players then "team1" else "team2")
  else none

/-- Arguments a caller supplies to `add_hand`; `now` stands for the
`datetime.now()` read inside the call. -/
structure HandInput where
  caller_name : String
  caller_team : String
  call_value : String
  points_scored : Int
  is_euchre : Bool
  other_team_points : Int
  notes : Option String
  now : Nat
  deriving DecidableEq

/-- Models `database_firestore.update_game_scores`
(database_firestore.py lines 179-188). -/
def update_game_scores (g : GameRec) (team1_score team2_score : Int) : GameRec :=
  { g with team1_score := team1_score, team2_score := team2_score }

/-- Models `database_firestore.finish_game` (database_firestore.py
lines 191-201). -/
def finish_game (g : GameRec) (winner : String) (now : Nat) : GameRec :=
  { g with status := "finished", winner := some winner, finished_at := some now }

/-- The hand document built inside `add_hand` (database_firestore.py
lines 238-280): `hand_number = len(hands) + 1`, deltas from the euchre
block, cumulatives from the game's current scores. -/
def newHand (g : GameRec) (a : HandInput) : HandRec :=
  let d := handDeltas a.caller_team a.points_scored a.is_euchre a.other_team_points
  ⟨g.hands.length + 1, a.caller_name, a.caller_team, a.call_value,
    a.points_scored, a.is_euchre, a.other_team_points, d.1, d.2,
    g.team1_score + d.1, g.team2_score + d.2, a.notes, a.now⟩

/-- Models `database_firestore.add_hand` (database_firestore.py lines
219-295): appends the hand, updates the game's scores to the new
cumulatives, then runs the finish check, team 1 first; the game's
status is never consulted.  `database.add_hand` (database.py lines
194-269) is the same computation (its `MAX(hand_number) + 1` equals
`len(hands) + 1` on dense ledgers).  The returned document id is not
modelled. -/
def add_hand (g : GameRec) (a : HandInput) : GameRec :=
  let h := newHand g a
  let g2 := update_game_scores { g with hands := g.hands ++ [h] }
    h.team1_cumulative h.team2_cumulative
  if g.target_score ≤ h.team1_cumulative then finish_game g2 g.team1_name a.now
  else if g.target_score ≤ h.team2_cumulative then finish_game g2 g.team2_name a.now
  else g2

/-- Models `database_firestore.delete_last_hand` (database_firestore.py
lines 331-366); `database.delete_last_hand` (database.py lines 291-326)
is the same computation.  Returns false on an empty ledger; otherwise
deletes `hands[-1]`, restores the scores from `hands[-2]` (the last
element of `dropLast`) or `(0, 0)`, and reactivates the game whenever
its status is "finished", unconditionally on the scores. -/
def delete_last_hand (g : GameRec) : Bool × GameRec :=
  if g.hands.isEmpty then (false, g)
  else
    let rest := g.hands.dropLast
    let scores :=
      match rest.getLast? with
      | some prev => (prev.team1_cumulative, prev.team2_cumulative)
      | none => ((0 : Int), (0 : Int))
    let g2 := update_game_scores { g with hands := rest } scores.1 scores.2
    if g2.status = "finished" then
      (true, { g2 with status := "active", winner := none, finished_at := none })
    else (true, g2)

/-- Models `database_firestore.create_game` (database_firestore.py
lines 83-111) and `database.create_game`: a fresh game with zero
scores, status "active", no winner, no finish time and an empty
ledger. -/
def create_game (id : Nat) (team1_name team2_name : String)
    (team1_players team2_players : List String)
    (target_score : Int) (created_at : Nat) : GameRec :=
  ⟨id, team1_name, team2_name, team1_players, team2_players,
    0, 0, target_score, "active", none, created_at, none, []⟩

/-- One ledger mutation on a game: an `add_hand` call or a
`delete_last_hand` call. -/
inductive Op where
  | addHand (a : HandInput)
  | deleteLast
  deriving DecidableEq

/-- Applies one ledger mutation to a game state. -/
def applyOp (g : GameRec) : Op → GameRec
  | Op.addHand a => add_hand g a
  | Op.deleteLast => (delete_last_hand g).2

/-- Runs a sequence of ledger mutations left to right. -/
def runOps (g : GameRec) (ops : List Op) : GameRec :=
  ops.foldl applyOp g

/-- Game states reachable from game creation by some sequence of
`add_hand` and `delete_last_hand` calls. -/
def Reachable (g : GameRec) : Prop :=
  ∃ id t1n t2n p1 p2 target c ops,
    runOps (create_game id t1n t2n p1 p2 target c) ops = g

/-- Folds the per-hand delta pairs from `(0, 0)`, the recomputation the
spec's cumulative invariant speaks about. -/
def foldDeltas (hands : List HandRec) : Int × Int :=
  hands.foldl (fun s h => (s.1 + h.team1_delta, s.2 + h.team2_delta))
    ((0 : Int), (0 : Int))

/-- Cumulative pair of the last hand of a list, with the supplied pair
as the empty-list default. -/
def lastCum (s1 s2 : Int) (hands : List HandRec) : Int × Int :=
  match hands.getLast? with
  | some h => (h.team1_cumulative, h.team2_cumulative)
  | none => (s1, s2)

/-- Every hand's cumulative pair extends the running pair by that
hand's deltas, starting from `(s1, s2)`. -/
def chainFrom (s1 s2 : Int) : List HandRec → Prop
  | [] => True
  | h :: t =>
      h.team1_cumulative = s1 + h.team1_delta ∧
      h.team2_cumulative = s2 + h.team2_delta ∧
      chainFrom h.team1_cumulative h.team2_cumulative t

/-- Hand numbers are dense and increasing: `k + 1, k + 2, ...` down the
list. -/
def numberedFrom (k : Nat) : List HandRec → Prop
  | [] => True
  | h :: t => h.hand_number = k + 1 ∧ numberedFrom (k + 1) t

/-- The ledger invariants of a game state: the cumulative chain from
`(0, 0)`, dense hand numbering from 1, and game scores equal to the
last hand's cumulative pair (or `(0, 0)`). -/
def Inv (g : GameRec) : Prop :=
  chainFrom 0 0 g.hands ∧ numberedFrom 0 g.hands ∧
  (g.team1_score, g.team2_score) = lastCum 0 0 g.hands

/-- Models the sort of `games.sort(key=lambda g: g.get('created_at',
''), reverse=True)`: game `a` may come before `b` when `b`'s creation
time is not above `a`'s. -/
def createdDesc (a b : GameRec) : Prop := b.created_at ≤ a.created_at

instance : DecidableRel createdDesc := fun a b => Nat.decLe b.created_at a.created_at

instance : IsTotal GameRec createdDesc := ⟨fun a b => Nat.le_total b.created_at a.created_at⟩

instance : IsTrans GameRec createdDesc := ⟨fun _ _ _ hab hbc => Nat.le_trans hbc hab⟩

/-- Models the sort key of `ORDER BY finished_at DESC`
(database.py line 138); a missing finish time sorts last, like an SQL
NULL under DESC. -/
def finishedDesc (a b : GameRec) : Prop := b.finished_at.getD 0 ≤ a.finished_at.getD 0

instance : DecidableRel finishedDesc :=
  fun a b => Nat.decLe (b.finished_at.getD 0) (a.finished_at.getD 0)

instance : IsTotal GameRec finishedDesc :=
  ⟨fun a b => Nat.le_total (b.finished_at.getD 0) (a.finished_at.getD 0)⟩

instance : IsTrans GameRec finishedDesc := ⟨fun _ _ _ hab hbc => Nat.le_trans hbc hab⟩

/-- Models `database_firestore.get_active_games` (database_firestore.py
lines 128-143): filter on status, then a Python sort by `created_at`
descending. -/
def get_active_games (games : List GameRec) : List GameRec :=
  List.insertionSort createdDesc (games.filter fun g => g.status == "active")

/-- Models `database_firestore.get_finished_games`
(database_firestore.py lines 146-161): filter on status "finished",
then a Python sort by `created_at` descending (the sort key at line 160
is `created_at`, not `finished_at`). -/
def get_finished_games (games : List GameRec) : List GameRec :=
  List.insertionSort createdDesc (games.filter fun g => g.status == "finished")

/-- Models `database_firestore.get_all_games` (database_firestore.py
lines 164-176): the collection ordered by `created_at` descending. -/
def get_all_games (games : List GameRec) : List GameRec :=
  List.insertionSort createdDesc games

/-- Models `database.get_finished_games` (database.py lines 132-146):
SELECT of the finished games with `ORDER BY finished_at DESC`. -/
def sqlite_get_finished_games (games : List GameRec) : List GameRec :=
  List.insertionSort finishedDesc (games.filter fun g => g.status == "finished")

/-- Sample finished game created first but finished last. -/
def gameCreatedFirst : GameRec :=
  ⟨10, "A1", "A2", ["pa"], ["pb"], 5, 0, 5, "finished", some "A1", 1, some 10, []⟩

/-- Sample finished game created second but finished first. -/
def gameCreatedSecond : GameRec :=
  ⟨11, "B1", "B2", ["pc"], ["pd"], 5, 0, 5, "finished", some "B1", 2, some 5, []⟩

/-- Sample trace for the status invariant: target 1, two winning hands
for team 1, then an undo.  The undo leaves the score at 1, still at the
target, yet the game is reactivated. -/
def undoDemoState : GameRec :=
  runOps (create_game 2 "T1" "T2" ["a"] ["b"] 1 0)
    [Op.addHand ⟨"a", "team1", "1", 1, false, 0, none, 1⟩,
     Op.addHand ⟨"a", "team1", "1", 1, false, 0, none, 2⟩,
     Op.deleteLast]

/-- Sample finished game for the append-to-finished scenario: target
10, team 1 reached 10 and won, then a second hand lifted team 2 to 8;
both appends finish the game with winner team 1. -/
def overwriteDemoGame : GameRec :=
  runOps (create_game 3 "T1" "T2" ["a"] ["b"] 10 0)
    [Op.addHand ⟨"a", "team1", "10", 10, false, 0, none, 1⟩,
     Op.addHand ⟨"b", "team2", "8", 8, false, 0, none, 2⟩]

/-- Sample hand appended to the already finished `overwriteDemoGame`: a
euchre against team 1 (call "6", 5 points taken), dropping team 1 to 4
and lifting team 2 to 11, past the target. -/
def overwriteDemoInput : HandInput :=
  ⟨"a", "team1", "6", 6, true, 3, none, 9⟩

theorem callerDelta_resolved (ct : String) (r : Resolved) :
    callerDelta ct (resolvedDeltas ct r) =
      if r.is_euchre then -r.points_to_record else r.points_to_record := by
  obtain ⟨e, o, pts⟩ := r
  by_cases hct : ct = "team1" <;> cases e <;>
    simp [callerDelta, resolvedDeltas, handDeltas, hct]

theorem opponentDelta_resolved (ct : String) (r : Resolved) :
    opponentDelta ct (resolvedDeltas ct r) =
      if r.is_euchre then r.other_team_points else 0 := by
  obtain ⟨e, o, pts⟩ := r
  by_cases hct : ct = "team1" <;> cases e <;>
    simp [opponentDelta, resolvedDeltas, handDeltas, hct]

/-- C1 fails as stated: on the finished-games add/edit path, the
numeric call "3" with 2 points is an euchre, but the recorded penalty
is 3 * 2 = 6, so the caller's team's delta is -6, not -3 as the claim
requires. -/
theorem C1_counterexample :
    pyInt "3" = some 3 ∧ (2 : Int) < 3 ∧
    finishedPageResolve "3" 2 = some ⟨true, 6, 6⟩ ∧
    callerDelta "team1" (resolvedDeltas "team1" ⟨true, 6, 6⟩) = -6 ∧
    ((-6 : Int) ≠ -3) := by decide

/-- C1 (amended): for a hand resolved with a numeric call value n, on
the active-game logging path the claim holds as stated: points p < n
give an euchre with caller delta -n and opponent delta 8 - p, and
p >= n gives no euchre, caller delta p, opponent delta 0.  On the
finished-game add/edit path the p >= n case behaves the same, but an
euchre (p < n) records a penalty of 2 * n, so the caller's team's
delta is -(n * 2) there, with opponent delta still 8 - p. -/
theorem C1_amended (call_value : String) (n p : Int) (ct : String)
    (hpb : call_value ≠ "Partner Best") (hal : call_value ≠ "Alone")
    (hn : pyInt call_value = some n) :
    (p < n →
      activePageResolve call_value p = ⟨true, 8 - p, n⟩ ∧
      callerDelta ct (resolvedDeltas ct ⟨true, 8 - p, n⟩) = -n ∧
      opponentDelta ct (resolvedDeltas ct ⟨true, 8 - p, n⟩) = 8 - p ∧
      finishedPageResolve call_value p = some ⟨true, 8 - p, n * 2⟩ ∧
      callerDelta ct (resolvedDeltas ct ⟨true, 8 - p, n * 2⟩) = -(n * 2) ∧
      opponentDelta ct (resolvedDeltas ct ⟨true, 8 - p, n * 2⟩) = 8 - p) ∧
    (n ≤ p →
      activePageResolve call_value p = ⟨false, 0, p⟩ ∧
      finishedPageResolve call_value p = some ⟨false, 0, p⟩ ∧
      callerDelta ct (resolvedDeltas ct ⟨false, 0, p⟩) = p ∧
      opponentDelta ct (resolvedDeltas ct ⟨false, 0, p⟩) = 0) := by
  constructor
  · intro hlt
    refine ⟨?_, ?_, ?_, ?_, ?_, ?_⟩ <;>
      simp [activePageResolve, finishedPageResolve, hpb, hal, hn, hlt,
        callerDelta_resolved, opponentDelta_resolved]
  · intro hge
    refine ⟨?_, ?_, ?_, ?_⟩ <;>
      simp [activePageResolve, finishedPageResolve, hpb, hal, hn,
        not_lt.mpr hge, callerDelta_resolved, opponentDelta_resolved]

theorem C1_amended_witness :
    activePageResolve "3" 2 = ⟨true, 6, 3⟩ ∧
    finishedPageResolve "3" 2 = some ⟨true, 6, 6⟩ ∧
    activePageResolve "3" 5 = ⟨false, 0, 5⟩ := by
  refine ⟨?_, ?_, ?_⟩
  · exact ((C1_amended "3" 3 2 "team1" (by decide) (by decide) (by decide)).1
      (by decide)).1
  · exact ((C1_amended "3" 3 2 "team1" (by decide) (by decide) (by decide)).1
      (by decide)).2.2.2.1
  · exact ((C1_amended "3" 3 5 "team1" (by decide) (by decide) (by decide)).2
      (by decide)).1

/-- C2: for a hand resolved with call value "Alone" or "Partner Best"
the input counts tricks won (0-8), on the active-game logging path and
on the finished-game add/edit path alike: 8 tricks give no euchre and
a caller delta of 8 (Alone) or 16 (Partner Best) with opponent delta 0;
fewer than 8 tricks give an euchre with caller delta -8 (Alone) or -16
(Partner Best) and opponent delta 8 - tricks. -/
theorem C2_alone_partner_best (tricks : Int) (ct : String)
    (h0 : 0 ≤ tricks) (h8 : tricks ≤ 8) :
    (tricks = 8 →
      activePageResolve "Alone" tricks = ⟨false, 0, 8⟩ ∧
      activePageResolve "Partner Best" tricks = ⟨false, 0, 16⟩ ∧
      finishedPageResolve "Alone" tricks = some ⟨false, 0, 8⟩ ∧
      finishedPageResolve "Partner Best" tricks = some ⟨false, 0, 16⟩ ∧
      callerDelta ct (resolvedDeltas ct ⟨false, 0, 8⟩) = 8 ∧
      callerDelta ct (resolvedDeltas ct ⟨false, 0, 16⟩) = 16 ∧
      opponentDelta ct (resolvedDeltas ct ⟨false, 0, 8⟩) = 0 ∧
      opponentDelta ct (resolvedDeltas ct ⟨false, 0, 16⟩) = 0) ∧
    (tricks < 8 →
      activePageResolve "Alone" tricks = ⟨true, 8 - tricks, 8⟩ ∧
      activePageResolve "Partner Best" tricks = ⟨true, 8 - tricks, 16⟩ ∧
      finishedPageResolve "Alone" tricks = some ⟨true, 8 - tricks, 8⟩ ∧
      finishedPageResolve "Partner Best" tricks = some ⟨true, 8 - tricks, 16⟩ ∧
      callerDelta ct (resolvedDeltas ct ⟨true, 8 - tricks, 8⟩) = -8 ∧
      callerDelta ct (resolvedDeltas ct ⟨true, 8 - tricks, 16⟩) = -16 ∧
      opponentDelta ct (resolvedDeltas ct ⟨true, 8 - tricks, 8⟩) = 8 - tricks ∧
      opponentDelta ct (resolvedDeltas ct ⟨true, 8 - tricks, 16⟩) = 8 - tricks) := by
  constructor
  · intro heq
    subst heq
    refine ⟨?_, ?_, ?_, ?_, ?_, ?_, ?_, ?_⟩ <;>
      simp [activePageResolve, finishedPageResolve,
        callerDelta_resolved, opponentDelta_resolved]
  · intro hlt
    have hne : tricks ≠ 8 := ne_of_lt hlt
    refine ⟨?_, ?_, ?_, ?_, ?_, ?_, ?_, ?_⟩ <;>
      simp [activePageResolve, finishedPageResolve, hlt, hne,
        callerDelta_resolved, opponentDelta_resolved]

theorem C2_alone_partner_best_witness :
    activePageResolve "Alone" 6 = ⟨true, 2, 8⟩ ∧
    finishedPageResolve "Partner Best" 6 = some ⟨true, 2, 16⟩ ∧
    activePageResolve "Alone" 8 = ⟨false, 0, 8⟩ := by
  refine ⟨?_, ?_, ?_⟩
  · exact ((C2_alone_partner_best 6 "team1" (by decide) (by decide)).2
      (by decide)).1
  · exact ((C2_alone_partner_best 6 "team1" (by decide) (by decide)).2
      (by decide)).2.2.2.1
  · exact ((C2_alone_partner_best 8 "team1" (by decide) (by decide)).1
      (by decide)).1

/-- C8: a call value that is neither "Alone" nor "Partner Best" and
does not parse as an integer falls back, on the active-game logging
path, to comparing the points against themselves: no euchre is
detected, the caller's team is credited with exactly the reported
points and the opposing team with 0. -/
theorem C8_unparseable_call (call_value : String) (p : Int) (ct : String)
    (hpb : call_value ≠ "Partner Best") (hal : call_value ≠ "Alone")
    (hn : pyInt call_value = none) :
    activePageResolve call_value p = ⟨false, 0, p⟩ ∧
    callerDelta ct (resolvedDeltas ct (activePageResolve call_value p)) = p ∧
    opponentDelta ct (resolvedDeltas ct (activePageResolve call_value p)) = 0 := by
  have hres : activePageResolve call_value p = ⟨false, 0, p⟩ := by
    simp [activePageResolve, hpb, hal, hn]
  refine ⟨hres, ?_, ?_⟩ <;>
    simp [hres, callerDelta_resolved, opponentDelta_resolved]

theorem C8_unparseable_call_witness :
    activePageResolve "Misdeal" 4 = ⟨false, 0, 4⟩ ∧
    callerDelta "team2" (resolvedDeltas "team2" (activePageResolve "Misdeal" 4)) = 4 := by
  refine ⟨?_, ?_⟩
  · exact (C8_unparseable_call "Misdeal" 4 "team2" (by decide) (by decide)
      (by decide)).1
  · exact (C8_unparseable_call "Misdeal" 4 "team2" (by decide) (by decide)
      (by decide)).2.1

theorem add_hand_hands (g : GameRec) (a : HandInput) :
    (add_hand g a).hands = g.hands ++ [newHand g a] := by
  unfold add_hand
  dsimp only
  split <;> (try split) <;> rfl

theorem add_hand_team1_score (g : GameRec) (a : HandInput) :
    (add_hand g a).team1_score = (newHand g a).team1_cumulative := by
  unfold add_hand
  dsimp only
  split <;> (try split) <;> rfl

theorem add_hand_team2_score (g : GameRec) (a : HandInput) :
    (add_hand g a).team2_score = (newHand g a).team2_cumulative := by
  unfold add_hand
  dsimp only
  split <;> (try split) <;> rfl

theorem add_hand_target (g : GameRec) (a : HandInput) :
    (add_hand g a).target_score = g.target_score := by
  unfold add_hand
  dsimp only
  split <;> (try split) <;> rfl

theorem add_hand_status (g : GameRec) (a : HandInput) :
    (add_hand g a).status =
      if g.target_score ≤ (newHand g a).team1_cumulative then "finished"
      else if g.target_score ≤ (newHand g a).team2_cumulative then "finished"
      else g.status := by
  unfold add_hand
  dsimp only
  split <;> (try split) <;> simp_all [finish_game, update_game_scores]

theorem add_hand_winner (g : GameRec) (a : HandInput) :
    (add_hand g a).winner =
      if g.target_score ≤ (newHand g a).team1_cumulative then some g.team1_name
      else if g.target_score ≤ (newHand g a).team2_cumulative then some g.team2_name
      else g.winner := by
  unfold add_hand
  dsimp only
  split <;> (try split) <;> simp_all [finish_game, update_game_scores]

theorem add_hand_finished_at (g : GameRec) (a : HandInput) :
    (add_hand g a).finished_at =
      if g.target_score ≤ (newHand g a).team1_cumulative then some a.now
      else if g.target_score ≤ (newHand g a).team2_cumulative then some a.now
      else g.finished_at := by
  unfold add_hand
  dsimp only
  split <;> (try split) <;> simp_all [finish_game, update_game_scores]

theorem delete_last_hand_of_empty (g : GameRec) (h : g.hands = []) :
    delete_last_hand g = (false, g) := by
  simp [delete_last_hand, h]

theorem delete_last_hand_fst (g : GameRec) (h : g.hands ≠ []) :
    (delete_last_hand g).1 = true := by
  simp only [delete_last_hand, List.isEmpty_iff, h, if_false]
  split <;> rfl

theorem delete_last_hand_hands (g : GameRec) (h : g.hands ≠ []) :
    (delete_last_hand g).2.hands = g.hands.dropLast := by
  simp only [delete_last_hand, List.isEmpty_iff, h, if_false]
  split <;> rfl

theorem delete_last_hand_scores (g : GameRec) (h : g.hands ≠ []) :
    ((delete_last_hand g).2.team1_score, (delete_last_hand g).2.team2_score) =
      lastCum 0 0 g.hands.dropLast := by
  simp only [delete_last_hand, List.isEmpty_iff, h, if_false, lastCum]
  split <;> split <;> simp_all [update_game_scores]

theorem delete_last_hand_status (g : GameRec) (h : g.hands ≠ []) :
    (delete_last_hand g).2.status =
      if g.status = "finished" then "active" else g.status := by
  simp only [delete_last_hand, List.isEmpty_iff, h, if_false]
  split <;> simp_all [update_game_scores]

theorem delete_last_hand_winner (g : GameRec) (h : g.hands ≠ []) :
    (delete_last_hand g).2.winner =
      if g.status = "finished" then none else g.winner := by
  simp only [delete_last_hand, List.isEmpty_iff, h, if_false]
  split <;> simp_all [update_game_scores]

theorem delete_last_hand_finished_at (g : GameRec) (h : g.hands ≠ []) :
    (delete_last_hand g).2.finished_at =
      if g.status = "finished" then none else g.finished_at := by
  simp only [delete_last_hand, List.isEmpty_iff, h, if_false]
  split <;> simp_all [update_game_scores]

/-- C7: the hand-entry forms only offer roster members as callers, so
a caller outside both rosters yields no submission; a submitted
caller's team is the team whose roster contains the caller; and the
forms' derivation agrees with `models.Game.get_player_team` on every
input. -/
theorem C7_roster_team (t1 t2 : List String) (caller : String) :
    (caller ∉ t1 → caller ∉ t2 → selectCallerTeam t1 t2 caller = none) ∧
    (∀ team, selectCallerTeam t1 t2 caller = some team →
      (team = "team1" ∧ caller ∈ t1) ∨ (team = "team2" ∧ caller ∈ t2)) ∧
    selectCallerTeam t1 t2 caller = get_player_team t1 t2 caller := by
  by_cases h1 : caller ∈ t1 <;> by_cases h2 : caller ∈ t2 <;>
    simp [selectCallerTeam, get_player_team, h1, h2]

theorem C7_roster_team_witness :
    selectCallerTeam ["ann"] ["bob"] "cyd" = none ∧
    ((("team2" : String) = "team1" ∧ "bob" ∈ ["ann"]) ∨
      (("team2" : String) = "team2" ∧ "bob" ∈ ["ann", "bob"])) := by
  constructor
  · exact (C7_roster_team ["ann"] ["bob"] "cyd").1 (by decide) (by decide)
  · have h := (C7_roster_team ["ann"] ["bob"] "bob").2.1 "team2" (by decide)
    rcases h with ⟨hl, hm⟩ | ⟨hr, hm⟩
    · exact Or.inl ⟨hl, hm⟩
    · exact Or.inr ⟨hr, by simp⟩

/-- C6: when a single appended hand leaves both teams' cumulative
totals at or above the target, `add_hand` finishes the game with team 1
as the winner, because the team 1 threshold is checked first. -/
theorem C6_simultaneous_crossing (g : GameRec) (a : HandInput)
    (h1 : g.target_score ≤ (add_hand g a).team1_score)
    (h2 : g.target_score ≤ (add_hand g a).team2_score) :
    (add_hand g a).status = "finished" ∧
    (add_hand g a).winner = some g.team1_name ∧
    (add_hand g a).finished_at = some a.now := by
  rw [add_hand_team1_score] at h1
  rw [add_hand_team2_score] at h2
  refine ⟨?_, ?_, ?_⟩
  · rw [add_hand_status, if_pos h1]
  · rw [add_hand_winner, if_pos h1]
  · rw [add_hand_finished_at, if_pos h1]

theorem C6_simultaneous_crossing_witness :
    (add_hand (create_game 4 "T1" "T2" ["a"] ["b"] 0 0)
        ⟨"a", "team1", "2", 2, false, 0, none, 7⟩).status = "finished" ∧
    (add_hand (create_game 4 "T1" "T2" ["a"] ["b"] 0 0)
        ⟨"a", "team1", "2", 2, false, 0, none, 7⟩).winner = some "T1" := by
  have h := C6_simultaneous_crossing (create_game 4 "T1" "T2" ["a"] ["b"] 0 0)
    ⟨"a", "team1", "2", 2, false, 0, none, 7⟩ (by decide) (by decide)
  exact ⟨h.1, h.2.1⟩

/-- C10: `add_hand` never consults the game's status: for every game,
finished ones included, it appends the hand, sets the scores to the new
cumulatives, and re-runs the target check, whose outcome depends only
on the new scores and the old status.  In particular appending to the
concrete finished game `overwriteDemoGame` (winner "T1") overwrites its
winner with "T2" and refreshes `finished_at`. -/
theorem C10_add_hand_ignores_status :
    (∀ (g : GameRec) (a : HandInput),
      (add_hand g a).hands = g.hands ++ [newHand g a] ∧
      (add_hand g a).team1_score = (newHand g a).team1_cumulative ∧
      (add_hand g a).team2_score = (newHand g a).team2_cumulative ∧
      ((add_hand g a).status = "finished" ↔
        (g.target_score ≤ (add_hand g a).team1_score ∨
          g.target_score ≤ (add_hand g a).team2_score ∨
          g.status = "finished"))) ∧
    overwriteDemoGame.status = "finished" ∧
    overwriteDemoGame.winner = some "T1" ∧
    overwriteDemoGame.finished_at = some 2 ∧
    (add_hand overwriteDemoGame overwriteDemoInput).winner = some "T2" ∧
    (add_hand overwriteDemoGame overwriteDemoInput).finished_at = some 9 ∧
    (add_hand overwriteDemoGame overwriteDemoInput).status = "finished" := by
  constructor
  · intro g a
    refine ⟨add_hand_hands g a, add_hand_team1_score g a, add_hand_team2_score g a, ?_⟩
    rw [add_hand_status, add_hand_team1_score, add_hand_team2_score]
    by_cases hc1 : g.target_score ≤ (newHand g a).team1_cumulative <;>
      by_cases hc2 : g.target_score ≤ (newHand g a).team2_cumulative <;>
      simp [hc1, hc2]
  · exact ⟨by decide, by decide, by decide, by decide, by decide, by decide⟩

/-- C4 fails as stated: `undoDemoState` arises from two winning hands
(target 1) followed by `delete_last_hand`; its score 1 still reaches
the target, yet the undo reverted the game to "active", so the claimed
"finished iff target reached" equivalence is violated. -/
theorem C4_counterexample :
    undoDemoState.status = "active" ∧
    undoDemoState.team1_score = 1 ∧ undoDemoState.team2_score = 0 ∧
    undoDemoState.target_score = 1 ∧
    ¬ (undoDemoState.status = "finished" ↔
        undoDemoState.target_score ≤
          max undoDemoState.team1_score undoDemoState.team2_score) := by
  decide

/-- C4 (amended): after `add_hand` the game is "finished" whenever the
new scores reach the target, and an under-target result leaves status,
winner and finish time unchanged — so a finished game whose scores
drop below the target stays "finished" rather than being reverted.
After `delete_last_hand` on a nonempty ledger a "finished" game is
always reverted to "active" with winner and finish time cleared,
regardless of whether the remaining scores still reach the target,
while a non-finished game keeps status, winner and finish time. -/
theorem C4_amended (g : GameRec) (a : HandInput) :
    ((g.target_score ≤ (add_hand g a).team1_score ∨
        g.target_score ≤ (add_hand g a).team2_score) →
      (add_hand g a).status = "finished") ∧
    ((add_hand g a).team1_score < g.target_score →
      (add_hand g a).team2_score < g.target_score →
      (add_hand g a).status = g.status ∧
      (add_hand g a).winner = g.winner ∧
      (add_hand g a).finished_at = g.finished_at) ∧
    (g.hands ≠ [] →
      (g.status = "finished" →
        (delete_last_hand g).2.status = "active" ∧
        (delete_last_hand g).2.winner = none ∧
        (delete_last_hand g).2.finished_at = none) ∧
      (g.status ≠ "finished" →
        (delete_last_hand g).2.status = g.status ∧
        (delete_last_hand g).2.winner = g.winner ∧
        (delete_last_hand g).2.finished_at = g.finished_at)) := by
  refine ⟨?_, ?_, ?_⟩
  · intro h
    rw [add_hand_team1_score, add_hand_team2_score] at h
    rw [add_hand_status]
    rcases h with h | h
    · rw [if_pos h]
    · by_cases h1 : g.target_score ≤ (newHand g a).team1_cumulative
      · rw [if_pos h1]
      · rw [if_neg h1, if_pos h]
  · intro h1 h2
    rw [add_hand_team1_score] at h1
    rw [add_hand_team2_score] at h2
    rw [add_hand_status, add_hand_winner, add_hand_finished_at]
    simp [not_le.mpr h1, not_le.mpr h2]
  · intro hne
    constructor
    · intro hf
      rw [delete_last_hand_status _ hne, delete_last_hand_winner _ hne,
        delete_last_hand_finished_at _ hne]
      simp [hf]
    · intro hf
      rw [delete_last_hand_status _ hne, delete_last_hand_winner _ hne,
        delete_last_hand_finished_at _ hne]
      simp [hf]

theorem C4_amended_witness :
    (add_hand overwriteDemoGame ⟨"a", "team1", "1", 1, false, 0, none, 3⟩).status
      = "finished" ∧
    (delete_last_hand overwriteDemoGame).2.status = "active" ∧
    (delete_last_hand overwriteDemoGame).2.winner = none := by
  have h := C4_amended overwriteDemoGame ⟨"a", "team1", "1", 1, false, 0, none, 3⟩
  have hdel := h.2.2 (by decide)
  exact ⟨h.1 (Or.inl (by decide)), (hdel.1 (by decide)).1, (hdel.1 (by decide)).2.1⟩

/-- C9 fails as stated: the Firestore backend that `app.py` imports
sorts finished games by creation time (database_firestore.py line 160),
not finish time: of two finished games whose creation order and finish
order disagree, `get_finished_games` returns the later-created but
earlier-finished game first, an order that is not finish-time
descending; the SQLite backend does return finish-time order. -/
theorem C9_counterexample :
    gameCreatedFirst.finished_at = some 10 ∧
    gameCreatedSecond.finished_at = some 5 ∧
    gameCreatedFirst.created_at = 1 ∧
    gameCreatedSecond.created_at = 2 ∧
    get_finished_games [gameCreatedFirst, gameCreatedSecond] =
      [gameCreatedSecond, gameCreatedFirst] ∧
    ¬ List.Sorted finishedDesc
        (get_finished_games [gameCreatedFirst, gameCreatedSecond]) ∧
    sqlite_get_finished_games [gameCreatedFirst, gameCreatedSecond] =
      [gameCreatedFirst, gameCreatedSecond] := by
  decide

/-- C9 (amended): in the Firestore backend the app imports, all three
listings — finished games, active games and all games — are ordered by
creation time descending and consist of exactly the matching games;
only the SQLite backend orders finished games by finish time
descending. -/
theorem C9_amended (games : List GameRec) :
    List.Sorted createdDesc (get_finished_games games) ∧
    List.Perm (get_finished_games games)
      (games.filter fun g => g.status == "finished") ∧
    List.Sorted createdDesc (get_active_games games) ∧
    List.Perm (get_active_games games)
      (games.filter fun g => g.status == "active") ∧
    List.Sorted createdDesc (get_all_games games) ∧
    List.Perm (get_all_games games) games ∧
    List.Sorted finishedDesc (sqlite_get_finished_games games) ∧
    List.Perm (sqlite_get_finished_games games)
      (games.filter fun g => g.status == "finished") := by
  refine ⟨List.sorted_insertionSort _ _, List.perm_insertionSort _ _,
    List.sorted_insertionSort _ _, List.perm_insertionSort _ _,
    List.sorted_insertionSort _ _, List.perm_insertionSort _ _,
    List.sorted_insertionSort _ _, List.perm_insertionSort _ _⟩

theorem lastCum_cons (s1 s2 : Int) (hd : HandRec) (tl : List HandRec) :
    lastCum s1 s2 (hd :: tl) =
      lastCum hd.team1_cumulative hd.team2_cumulative tl := by
  cases tl with
  | nil => rfl
  | cons x xs =>
      simp only [lastCum, List.getLast?_cons_cons]
      cases hxl : (x :: xs).getLast? with
      | none => simp at hxl
      | some y => rfl

theorem lastCum_concat (s1 s2 : Int) (hs : List HandRec) (h : HandRec) :
    lastCum s1 s2 (hs ++ [h]) = (h.team1_cumulative, h.team2_cumulative) := by
  simp [lastCum, List.getLast?_concat]

theorem chainFrom_append (s1 s2 : Int) (hs : List HandRec) (h : HandRec)
    (hc : chainFrom s1 s2 hs)
    (h1 : h.team1_cumulative = (lastCum s1 s2 hs).1 + h.team1_delta)
    (h2 : h.team2_cumulative = (lastCum s1 s2 hs).2 + h.team2_delta) :
    chainFrom s1 s2 (hs ++ [h]) := by
  induction hs generalizing s1 s2 with
  | nil => exact ⟨h1, h2, trivial⟩
  | cons hd tl ih =>
      obtain ⟨e1, e2, hrest⟩ := hc
      rw [lastCum_cons] at h1 h2
      exact ⟨e1, e2, ih _ _ hrest h1 h2⟩

theorem chainFrom_dropLast (s1 s2 : Int) (hs : List HandRec)
    (hc : chainFrom s1 s2 hs) : chainFrom s1 s2 hs.dropLast := by
  induction hs generalizing s1 s2 with
  | nil => trivial
  | cons hd tl ih =>
      cases tl with
      | nil => trivial
      | cons x xs =>
          obtain ⟨e1, e2, hrest⟩ := hc
          exact ⟨e1, e2, ih _ _ hrest⟩

theorem numberedFrom_append (k : Nat) (hs : List HandRec) (h : HandRec)
    (hn : numberedFrom k hs) (hh : h.hand_number = k + hs.length + 1) :
    numberedFrom k (hs ++ [h]) := by
  induction hs generalizing k with
  | nil => exact ⟨by simpa using hh, trivial⟩
  | cons hd tl ih =>
      obtain ⟨e, hrest⟩ := hn
      refine ⟨e, ih _ hrest ?_⟩
      rw [hh]
      simp [List.length_cons]
      omega

theorem numberedFrom_dropLast (k : Nat) (hs : List HandRec)
    (hn : numberedFrom k hs) : numberedFrom k hs.dropLast := by
  induction hs generalizing k with
  | nil => trivial
  | cons hd tl ih =>
      cases tl with
      | nil => trivial
      | cons x xs =>
          obtain ⟨e, hrest⟩ := hn
          exact ⟨e, ih _ hrest⟩

theorem numberedFrom_get (k : Nat) (hs : List HandRec) (hn : numberedFrom k hs) :
    ∀ i (hi : i < hs.length), (hs.get ⟨i, hi⟩).hand_number = k + i + 1 := by
  induction hs generalizing k with
  | nil => intro i hi; exact absurd hi (by simp)
  | cons hd tl ih =>
      intro i hi
      cases i with
      | zero => exact hn.1
      | succ j =>
          have hj : j < tl.length := by simpa using hi
          have := ih _ hn.2 j hj
          simp only [List.get_cons_succ]
          omega

theorem chainFrom_foldl (s1 s2 : Int) (hs : List HandRec)
    (hc : chainFrom s1 s2 hs) :
    ∀ i (hi : i < hs.length),
      List.foldl (fun s h => (s.1 + h.team1_delta, s.2 + h.team2_delta))
          (s1, s2) (hs.take (i + 1)) =
        ((hs.get ⟨i, hi⟩).team1_cumulative,
          (hs.get ⟨i, hi⟩).team2_cumulative) := by
  induction hs generalizing s1 s2 with
  | nil => intro i hi; exact absurd hi (by simp)
  | cons hd tl ih =>
      obtain ⟨e1, e2, hrest⟩ := hc
      intro i hi
      cases i with
      | zero =>
          simp [List.take_succ_cons, e1, e2]
      | succ j =>
          have hj : j < tl.length := by simpa using hi
          have hstep := ih _ _ hrest j hj
          simp only [List.take_succ_cons, List.foldl_cons, List.get_cons_succ]
          rw [← e1, ← e2]
          exact hstep

theorem Inv_create (id : Nat) (t1n t2n : String) (p1 p2 : List String)
    (target : Int) (c : Nat) :
    Inv (create_game id t1n t2n p1 p2 target c) :=
  ⟨trivial, trivial, rfl⟩

theorem Inv_add_hand (g : GameRec) (a : HandInput) (hg : Inv g) :
    Inv (add_hand g a) := by
  obtain ⟨hc, hn, hs⟩ := hg
  have h1 : (lastCum 0 0 g.hands).1 = g.team1_score := by rw [← hs]
  have h2 : (lastCum 0 0 g.hands).2 = g.team2_score := by rw [← hs]
  refine ⟨?_, ?_, ?_⟩
  · rw [add_hand_hands]
    refine chainFrom_append _ _ _ _ hc ?_ ?_
    · rw [h1]; rfl
    · rw [h2]; rfl
  · rw [add_hand_hands]
    refine numberedFrom_append _ _ _ hn ?_
    show g.hands.length + 1 = 0 + g.hands.length + 1
    omega
  · rw [add_hand_hands, add_hand_team1_score, add_hand_team2_score,
      lastCum_concat]

theorem Inv_delete_last (g : GameRec) (hg : Inv g) :
    Inv (delete_last_hand g).2 := by
  by_cases hne : g.hands = []
  · rw [delete_last_hand_of_empty g hne]
    exact hg
  · obtain ⟨hc, hn, _⟩ := hg
    refine ⟨?_, ?_, ?_⟩
    · rw [delete_last_hand_hands _ hne]
      exact chainFrom_dropLast _ _ _ hc
    · rw [delete_last_hand_hands _ hne]
      exact numberedFrom_dropLast _ _ hn
    · rw [delete_last_hand_hands _ hne]
      exact delete_last_hand_scores g hne

theorem Inv_applyOp (g : GameRec) (op : Op) (hg : Inv g) :
    Inv (applyOp g op) := by
  cases op with
  | addHand a => exact Inv_add_hand g a hg
  | deleteLast => exact Inv_delete_last g hg

theorem Inv_runOps (g : GameRec) (ops : List Op) (hg : Inv g) :
    Inv (runOps g ops) := by
  induction ops generalizing g with
  | nil => exact hg
  | cons op rest ih => exact ih _ (Inv_applyOp g op hg)

theorem Inv_reachable (g : GameRec) (hg : Reachable g) : Inv g := by
  obtain ⟨id, t1n, t2n, p1, p2, target, c, ops, rfl⟩ := hg
  exact Inv_runOps _ _ (Inv_create id t1n t2n p1 p2 target c)

/-- C3: in every game state reachable by `add_hand` and
`delete_last_hand` operations, folding the per-hand delta pairs from
`(0, 0)` over any prefix of the ledger reproduces that prefix's last
stored cumulative pair exactly, the ledger is densely numbered 1, 2,
... (so list order is hand-number order), and the game's scores equal
the last hand's cumulative pair, or `(0, 0)` with no hands. -/
theorem C3_cumulative_fold (g : GameRec) (hg : Reachable g) :
    (∀ i (hi : i < g.hands.length),
      foldDeltas (g.hands.take (i + 1)) =
        ((g.hands.get ⟨i, hi⟩).team1_cumulative,
          (g.hands.get ⟨i, hi⟩).team2_cumulative)) ∧
    (∀ i (hi : i < g.hands.length),
      (g.hands.get ⟨i, hi⟩).hand_number = i + 1) ∧
    (g.team1_score, g.team2_score) = lastCum 0 0 g.hands := by
  obtain ⟨hc, hn, hs⟩ := Inv_reachable g hg
  refine ⟨?_, ?_, hs⟩
  · intro i hi
    exact chainFrom_foldl 0 0 g.hands hc i hi
  · intro i hi
    have := numberedFrom_get 0 g.hands hn i hi
    omega

theorem C3_cumulative_fold_witness :
    foldDeltas (overwriteDemoGame.hands.take 1) =
      ((overwriteDemoGame.hands.get ⟨0, by decide⟩).team1_cumulative,
        (overwriteDemoGame.hands.get ⟨0, by decide⟩).team2_cumulative) ∧
    (overwriteDemoGame.team1_score, overwriteDemoGame.team2_score) =
      lastCum 0 0 overwriteDemoGame.hands := by
  have h := C3_cumulative_fold overwriteDemoGame
    ⟨3, "T1", "T2", ["a"], ["b"], 10, 0,
      [Op.addHand ⟨"a", "team1", "10", 10, false, 0, none, 1⟩,
       Op.addHand ⟨"b", "team2", "8", 8, false, 0, none, 2⟩], rfl⟩
  exact ⟨h.1 0 (by decide), h.2.2⟩

/-- C5: on every reachable game state, `delete_last_hand` returns
false and changes nothing when the ledger is empty; otherwise it
returns true, removes exactly the last hand — which carries the
highest `hand_number` of the ledger — and sets the game's scores to
the new last hand's stored cumulative pair, or `(0, 0)` if the ledger
is now empty. -/
theorem C5_delete_last (g : GameRec) (hg : Reachable g) :
    (g.hands = [] → delete_last_hand g = (false, g)) ∧
    (g.hands ≠ [] →
      (delete_last_hand g).1 = true ∧
      (delete_last_hand g).2.hands = g.hands.dropLast ∧
      (∃ last, g.hands.getLast? = some last ∧
        last.hand_number = g.hands.length ∧
        ∀ h ∈ g.hands, h.hand_number ≤ last.hand_number) ∧
      ((delete_last_hand g).2.team1_score,
        (delete_last_hand g).2.team2_score) =
        lastCum 0 0 g.hands.dropLast) := by
  obtain ⟨_, hn, _⟩ := Inv_reachable g hg
  refine ⟨delete_last_hand_of_empty g, ?_⟩
  intro hne
  refine ⟨delete_last_hand_fst g hne, delete_last_hand_hands g hne, ?_,
    delete_last_hand_scores g hne⟩
  have hlen : 0 < g.hands.length := List.length_pos.mpr hne
  refine ⟨g.hands.getLast hne, List.getLast?_eq_getLast_of_ne_nil hne, ?_, ?_⟩
  · rw [List.getLast_eq_get]
    have := numberedFrom_get 0 g.hands hn (g.hands.length - 1) (by omega)
    omega
  · intro h hmem
    rw [List.getLast_eq_get]
    obtain ⟨i, hih⟩ := List.mem_iff_get.mp hmem
    have hval : h.hand_number = i.val + 1 := by
      have := numberedFrom_get 0 g.hands hn i.val i.isLt
      rw [hih] at this
      omega
    have hlast := numberedFrom_get 0 g.hands hn (g.hands.length - 1) (by omega)
    have hisLt := i.isLt
    omega

theorem C5_delete_last_witness :
    (delete_last_hand overwriteDemoGame).1 = true ∧
    (delete_last_hand overwriteDemoGame).2.hands =
      overwriteDemoGame.hands.dropLast ∧
    delete_last_hand (create_game 5 "X" "Y" ["p"] ["q"] 10 0) =
      (false, create_game 5 "X" "Y" ["p"] ["q"] 10 0) := by
  have h := C5_delete_last overwriteDemoGame
    ⟨3, "T1", "T2", ["a"], ["b"], 10, 0,
      [Op.addHand ⟨"a", "team1", "10", 10, false, 0, none, 1⟩,
       Op.addHand ⟨"b", "team2", "8", 8, false, 0, none, 2⟩], rfl⟩
  have h0 := C5_delete_last (create_game 5 "X" "Y" ["p"] ["q"] 10 0)
    ⟨5, "X", "Y", ["p"], ["q"], 10, 0, [], rfl⟩
  exact ⟨(h.2 (by decide)).1, (h.2 (by decide)).2.1, h0.1 rfl⟩

end Euchre
